import Mathlib

set_option maxHeartbeats 1000000
set_option maxRecDepth 100000

/-!
Verification development for the `zlp-aperture-positions` script (`main.py`).

The script pairs reduced images (`proc*.fits`) with photometry catalogs
(`<basename>.phot`), filters each catalog by a flux threshold, renders the
surviving (ra, dec) pairs as a DS9 region overlay and drives an external DS9
viewer over the paired files on a fixed stride.

Modelling conventions used throughout this file:
* numeric catalog values (ra, dec, flux) are modelled as exact rationals `ℚ`;
  Python's `str()` rendering of a float is modelled by `pyFloatStr`, the exact
  decimal expansion (up to 12 fractional digits, always at least one), which
  agrees with CPython on every value whose decimal expansion terminates there
  (`str(15.0) = "15.0"`, `str(10.123456) = "10.123456"`, ...);
* the filesystem is a map `String → Option String` from paths to contents;
* the external `ds9` process is modelled by the ordered list of textual
  directives issued to it (`DS9.cmds`);
* Python iterators are modelled by explicit list traversals; in particular the
  shared-iterator consumption pattern of `files` / `photfiles` / `izip` in
  `main` is reproduced exactly by `combinedAux`;
* a Python exception escaping an operation is modelled with `Except`.
-/

/-! ## Characters and digits -/

def digitChar (d : ℕ) : Char :=
  if d < 10 then Char.ofNat (48 + d) else '9'

def charDigit (c : Char) : Option ℕ :=
  if '0' ≤ c ∧ c ≤ '9' then some (c.toNat - ('0').toNat) else none

/-- Big-endian decimal digits of a natural number; `fuel` bounds the recursion
and any `fuel ≥ number of digits` gives the exact digit list. -/
def natDigitsBE : ℕ → ℕ → List ℕ
  | 0, _ => []
  | fuel + 1, n => if n = 0 then [] else natDigitsBE fuel (n / 10) ++ [n % 10]

/-- Decimal rendering of the integral part of a float, as Python prints it
(`"0"` for zero, no leading zeros otherwise). -/
def intChars (n : ℕ) : List Char :=
  if n = 0 then ['0'] else (natDigitsBE n n).map digitChar

/-- Value of a big-endian digit list. -/
def bigEndVal (l : List ℕ) : ℕ := l.foldl (fun a d => a * 10 + d) 0

/-! ## Fractional-digit expansion of `n / d` (with `n < d`) -/

/-- Decimal digits of the fractional value `n / d` (`n < d`), most
significant first, stopping at the first exact representation (no trailing
zeros) or after `fuel` digits. -/
def fracDigitsND : ℕ → ℕ → ℕ → List ℕ
  | 0, _, _ => []
  | fuel + 1, n, d => if n = 0 then [] else n * 10 / d :: fracDigitsND fuel (n * 10 % d) d

/-- Value of a fractional digit list: `[d₀, d₁, ...] ↦ d₀/10 + d₁/100 + ...`. -/
def digitsVal (ds : List ℕ) : ℚ := ds.foldr (fun d acc => ((d : ℚ) + acc) / 10) 0

/-! ## Python `str()` on float values, modelled over exact rationals -/

/-- Decimal rendering of the nonnegative value `n / d`, Python-style:
integral part, a dot, then the fractional digits (`"0"` when the value is
integral). -/
def strNNCharsND (n d : ℕ) : List Char :=
  intChars (n / d) ++
    '.' :: (if n % d = 0 then ['0'] else (fracDigitsND 12 (n % d) d).map digitChar)

/-- Decimal rendering of a rational value, Python-`str()`-style. -/
def strChars (q : ℚ) : List Char :=
  if q < 0 then '-' :: strNNCharsND (-q).num.toNat (-q).den
  else strNNCharsND q.num.toNat q.den

def pyFloatStr (q : ℚ) : String := String.mk (strChars q)

/-! ## The `Regions` class: catalog filtering (`Regions.from_file`) -/

/-- The boolean mask `flux > 100.` computed in `Regions.from_file`. -/
def fluxMask (flux : List ℚ) : List Bool := flux.map (fun f => decide ((100 : ℚ) < f))

/-- Numpy boolean-mask selection `data[ind]`. -/
def maskSelect (xs : List ℚ) (mask : List Bool) : List ℚ :=
  (xs.zip mask).filterMap (fun p => if p.2 then some p.1 else none)

/-- The pure data part of `Regions.from_file`: filter `ra`/`dec` by
`flux > 100.` and zip the survivors into (ra, dec) pairs. -/
def Regions.from_file_data (ra dec flux : List ℚ) : List (ℚ × ℚ) :=
  (maskSelect ra (fluxMask flux)).zip (maskSelect dec (fluxMask flux))

/-- Specification-level filter: walk the rows in order and keep the (ra, dec)
of every row whose flux exceeds the fixed threshold 100. -/
def catalogFilterSpec : List (ℚ × ℚ × ℚ) → List (ℚ × ℚ)
  | [] => []
  | (r, d, f) :: rest =>
    if 100 < f then (r, d) :: catalogFilterSpec rest else catalogFilterSpec rest

/-- Row-wise pairing of the three parallel catalog columns. -/
def zip3 : List ℚ → List ℚ → List ℚ → List (ℚ × ℚ × ℚ)
  | a :: as, b :: bs, c :: cs => (a, b, c) :: zip3 as bs cs
  | _, _, _ => []

/-! ## The `Regions` class: rendering -/

def headerLine1 : String := "# Region file format: DS9 version 4.1"

def headerLine2 : String :=
  "global color=green dashlist=8 3 width=1 font=\"helvetica 10 normal roman\" select=1 highlite=1 dash=0 fixed=0 edit=1 move=1 delete=1 include=1 source=1"

def headerLines : List String := [headerLine1, headerLine2, "fk5"]

/-- The header block written by `Regions.render_header` (three lines, each
newline-terminated: the triple-quoted literal joined by the trailing
`+ "\n"` of the source). -/
def Regions.render_header : String :=
  headerLine1 ++ "\n" ++ headerLine2 ++ "\n" ++ "fk5" ++ "\n"

/-- `Regions.print_aperture`: one circle directive; the radius is the fixed
constant `3. * 5.` (aperture radius in pixels × arcsec per pixel). -/
def Regions.print_aperture (ra dec : ℚ) : String :=
  "circle(" ++ pyFloatStr ra ++ "," ++ pyFloatStr dec ++ "," ++ pyFloatStr (3 * 5) ++ "\")"

/-- Content written by `Regions.render_to_file`: the header block followed by
one newline-terminated aperture line per region. -/
def Regions.render (regions : List (ℚ × ℚ)) : String :=
  Regions.render_header ++
    String.join (regions.map (fun p => Regions.print_aperture p.1 p.2 ++ "\n"))

/-! ## Filesystem model -/

abbrev Fs : Type := String → Option String

def setFile (fs : Fs) (p c : String) : Fs := fun q => if q = p then some c else fs q

def delFile (fs : Fs) (p : String) : Fs := fun q => if q = p then none else fs q

/-- `Regions.render_to_file`: open `outfname` for writing (truncating) and
write the header plus the aperture lines. -/
def Regions.render_to_file (fs : Fs) (outfname : String) (regions : List (ℚ × ℚ)) : Fs :=
  setFile fs outfname (Regions.render regions)

/-! ## Paths: `os.path.basename` and `os.path.join` -/

def basenameChars (l : List Char) : List Char :=
  (l.reverse.takeWhile (fun c => c != '/')).reverse

/-- `os.path.basename`: the part of the path after the last slash. -/
def basename (p : String) : String := String.mk (basenameChars p.data)

def strStartsWith (s pre : String) : Bool := pre.data.isPrefixOf s.data

def strEndsWith (s suf : String) : Bool := suf.data.reverse.isPrefixOf s.data.reverse

/-- `os.path.join` for one component. -/
def path_join (d f : String) : String :=
  if strStartsWith f ("/") then f
  else if d = "" then f
  else if strEndsWith d ("/") then d ++ f
  else d ++ "/" ++ f

/-- The catalog path derived in `main`:
`os.path.join(args.photfiles_dir, '{}.phot'.format(os.path.basename(f)))`. -/
def photPath (photdir f : String) : String := path_join photdir (basename f ++ ".phot")

/-! ## The orchestration pairing (`files` / `photfiles` / `izip` in `main`)

`files = glob.iglob(...)` is an iterator, and `photfiles` is a generator
expression drawing from that same iterator, so
`combined = izip(count(0), files, photfiles)` interleaves its pulls: each
output triple takes one item from `files` for the image slot, then lets the
`photfiles` generator consume further items from the same `files` iterator
(skipping those failing `os.path.isfile`) to produce the catalog slot.
`combinedAux` reproduces this exactly: state `none` means the next pull
feeds the image slot, state `some f` means image `f` is pending and the
next `isfile`-passing pull feeds its catalog slot. -/

def combinedAux (photdir : String) (isfile : String → Bool) :
    ℕ → Option String → List String → List (ℕ × String × String)
  | _, _, [] => []
  | i, none, f :: rest => combinedAux photdir isfile i (some f) rest
  | i, some f, g :: rest =>
    if isfile g then (i, f, photPath photdir g) :: combinedAux photdir isfile (i + 1) none rest
    else combinedAux photdir isfile i (some f) rest

/-- The sequence of `(i, fname, photfile)` triples enumerated by the loop
`for (i, fname, photfile) in combined` in `main`. -/
def combined (photdir : String) (isfile : String → Bool) (files : List String) :
    List (ℕ × String × String) :=
  combinedAux photdir isfile 0 none files

/-- The cycles selected for display by `if i % 100 == 0` in `main`. -/
def displayedCycles (cycles : List (ℕ × String × String)) : List (ℕ × String × String) :=
  cycles.filter (fun c => c.1 % 100 == 0)

/-! ## Catalog files and `Regions.from_file` with its failure modes -/

/-- A FITS table as `Regions.from_file` sees it: each named column access
either succeeds or raises. -/
structure FitsTable where
  ra : Option (List ℚ)
  dec : Option (List ℚ)
  core3_flux : Option (List ℚ)

/-- `Regions.from_file` over an abstract FITS reader: opening the file or
reading a named column can fail, and the failure escapes as an exception
(modelled with `Except`). -/
def Regions.from_file (readFits : String → Option FitsTable) (fname : String) :
    Except String (List (ℚ × ℚ)) :=
  match readFits fname with
  | none => Except.error ("CatalogReadError: could not open " ++ fname)
  | some t =>
    match t.ra, t.dec, t.core3_flux with
    | some ra, some dec, some flux => Except.ok (Regions.from_file_data ra dec flux)
    | _, _, _ => Except.error ("CatalogReadError: missing column in " ++ fname)

/-- The display loop of `main`, tracking which cycle indices are shown: for
each selected cycle the catalog is read (inside `load_regions`); the source
has no exception handler, so a read error propagates and ends the run.
Returns the displayed indices, or the first escaping error. -/
def runCycles (readFits : String → Option FitsTable) :
    List (ℕ × String × String) → Except String (List ℕ)
  | [] => Except.ok []
  | (i, _, photfile) :: rest =>
    if i % 100 == 0 then
      match Regions.from_file readFits photfile with
      | Except.error e => Except.error e
      | Except.ok _ =>
        match runCycles readFits rest with
        | Except.error e => Except.error e
        | Except.ok shown => Except.ok (i :: shown)
    else runCycles readFits rest

/-- A catalog store whose files all lack the `core3_flux` column. -/
def missingFluxReader : String → Option FitsTable :=
  fun _ => some { ra := some [10], dec := some [20], core3_flux := none }

/-! ## The DS9 viewer session -/

/-- The `DS9` wrapper: the pan target, the zoom level, and the ordered list
of directives issued to the external viewer process. -/
structure DS9 where
  x : ℤ
  y : ℤ
  zoom : ℤ
  cmds : List String

/-- `self.ds9.set(cmd)`: issue one directive. -/
def DS9.set (s : DS9) (cmd : String) : DS9 := { s with cmds := s.cmds ++ [cmd] }

/-- `DS9.__init__`: default the pan target to (1024, 1024) and the zoom to 1
when the optional arguments are absent, then set the coordinate system. -/
def DS9.init (x y zoom : Option ℤ) : DS9 :=
  { x := x.getD 1024, y := y.getD 1024, zoom := zoom.getD 1,
    cmds := ["regions system wcs sky fk5 skyformat degrees"] }

def DS9.pan_to (s : DS9) (x y : ℤ) : DS9 :=
  s.set ("pan to " ++ toString x ++ " " ++ toString y ++ " physical")

def DS9.set_zscale (s : DS9) : DS9 := s.set ("zscale")

def DS9.zoom_level (s : DS9) (level : ℤ) : DS9 := s.set ("zoom " ++ toString level)

/-- `DS9.open_file`: load the image, then re-assert pan, zscale and the
stored zoom level. -/
def DS9.open_file (s : DS9) (fname : String) : DS9 :=
  (((s.set ("file " ++ fname)).pan_to s.x s.y).set_zscale).zoom_level s.zoom

/-! ## `DS9.load_regions` and its scoped temporary file -/

/-- The `with tempfile.NamedTemporaryFile(...) as tfile` block: create the
temporary file, run the body, and delete the file on every exit path
(success or exception). -/
def withTempFile (tmpPath : String) (fs : Fs) (body : Fs → Except String Unit × Fs) :
    Except String Unit × Fs :=
  let r := body (setFile fs tmpPath "")
  (r.1, delFile r.2 tmpPath)

/-- `DS9.load_regions` over the filesystem model: build the RegionSet from
the catalog (which can raise), render it to the scoped temporary file, and
issue the load-overlay directive (whose failure is modelled by
`xpaOk = false`). -/
def DS9.load_regions_fs (readFits : String → Option FitsTable) (xpaOk : Bool)
    (fname tmpPath : String) (fs : Fs) : Except String Unit × Fs :=
  withTempFile tmpPath fs (fun fs0 =>
    match Regions.from_file readFits fname with
    | Except.error e => (Except.error e, fs0)
    | Except.ok regions =>
      if xpaOk then (Except.ok (), Regions.render_to_file fs0 tmpPath regions)
      else (Except.error "XPAError", Regions.render_to_file fs0 tmpPath regions))

/-! ## Claim C4: a parser for the coordinate lines of the overlay -/

/-- Split a character list at every occurrence of `c` (the groups do not
contain `c`; n separators give n+1 groups). -/
def splitOnChar (c : Char) : List Char → List (List Char)
  | [] => [[]]
  | x :: xs =>
    if x = c then [] :: splitOnChar c xs
    else
      match splitOnChar c xs with
      | [] => [[x]]
      | g :: gs => (x :: g) :: gs

def dropPrefixC : List Char → List Char → Option (List Char)
  | [], l => some l
  | _ :: _, [] => none
  | p :: ps, x :: xs => if x = p then dropPrefixC ps xs else none

def dropSuffixC (suf l : List Char) : Option (List Char) :=
  (dropPrefixC suf.reverse l.reverse).map List.reverse

/-- Parse a non-empty all-digit character list as a natural number. -/
def parseNatChars (l : List Char) : Option ℕ :=
  if l.isEmpty then none
  else (l.mapM charDigit).map bigEndVal

/-- Parse a nonnegative decimal `"<int>.<frac>"`. -/
def parseDecNNChars (l : List Char) : Option ℚ :=
  match splitOnChar '.' l with
  | [ip, fp] =>
    match parseNatChars ip, parseNatChars fp with
    | some a, some b => some ((a : ℚ) + (b : ℚ) / 10 ^ fp.length)
    | _, _ => none
  | _ => none

/-- Parse a decimal with an optional leading minus sign. -/
def parseDecChars (l : List Char) : Option ℚ :=
  if l.head? = some '-' then (parseDecNNChars l.tail).map (fun x => -x)
  else parseDecNNChars l

/-- Parse one coordinate line of the overlay back into its (ra, dec, radius)
triple. -/
def parseAperture (s : String) : Option (ℚ × ℚ × ℚ) :=
  (dropPrefixC (("circle(").data) s.data).bind (fun rest =>
    (dropSuffixC (("\")").data) rest).bind (fun mid =>
      match (splitOnChar ',' mid).map parseDecChars with
      | [some a, some b, some c] => some (a, b, c)
      | _ => none))

/-! ## Basic string lemmas -/

theorem str_join_cons (s : String) (l : List String) :
    String.join (s :: l) = s ++ String.join l := by
  have h : ∀ (l : List String) (a : String), l.foldl (· ++ ·) a = a ++ l.foldl (· ++ ·) "" := by
    intro l
    induction l with
    | nil => intro a; simp
    | cons x xs ih =>
      intro a
      simp only [List.foldl_cons]
      rw [ih (a ++ x), ih ("" ++ x)]
      simp [String.append_assoc]
  simp only [String.join, List.foldl_cons]
  rw [h l ("" ++ s)]
  simp [String.append_assoc]

theorem str_join_append (l1 l2 : List String) :
    String.join (l1 ++ l2) = String.join l1 ++ String.join l2 := by
  induction l1 with
  | nil =>
    simp only [List.nil_append]
    have : String.join ([] : List String) = "" := rfl
    rw [this]
    simp
  | cons x xs ih =>
    simp only [List.cons_append]
    rw [str_join_cons, str_join_cons, ih, String.append_assoc]

/-! ## Claim C2: the catalog filter -/

theorem from_file_data_cons (a b f : ℚ) (ra dec flux : List ℚ) :
    Regions.from_file_data (a :: ra) (b :: dec) (f :: flux) =
      if 100 < f then (a, b) :: Regions.from_file_data ra dec flux
      else Regions.from_file_data ra dec flux := by
  simp only [Regions.from_file_data, fluxMask, maskSelect, List.map_cons,
    List.zip_cons_cons, List.filterMap_cons]
  by_cases h : (100 : ℚ) < f
  · simp [h]
  · simp [h]

/-- C2 (confirmed). The catalog filter of `Regions.from_file` keeps row `i`
iff `flux[i] > 100`, producing the (ra, dec) pairs of the surviving rows
with values preserved, in input order, with no deduplication (this is what
`catalogFilterSpec`, the row-by-row reading of the spec, expresses); and on
the spec's Scenario 1 data it yields exactly [(11,21), (13,23)]. -/
theorem c2_catalog_filter :
    (∀ ra dec flux : List ℚ, ra.length = flux.length → dec.length = flux.length →
      Regions.from_file_data ra dec flux = catalogFilterSpec (zip3 ra dec flux))
    ∧ Regions.from_file_data [10, 11, 12, 13] [20, 21, 22, 23] [50, 150, 99.9, 500]
        = [(11, 21), (13, 23)] := by
  constructor
  · intro ra dec flux
    induction flux generalizing ra dec with
    | nil =>
      intro h1 h2
      rw [List.length_nil, List.length_eq_zero] at h1 h2
      subst h1
      subst h2
      rfl
    | cons f fs ih =>
      intro h1 h2
      cases ra with
      | nil => simp at h1
      | cons a as =>
        cases dec with
        | nil => simp at h2
        | cons b bs =>
          simp only [List.length_cons, Nat.add_right_cancel_iff] at h1 h2
          rw [from_file_data_cons]
          show _ = catalogFilterSpec ((a, b, f) :: zip3 as bs fs)
          by_cases hf : (100 : ℚ) < f
          · simp [catalogFilterSpec, hf, ih as bs h1 h2]
          · simp [catalogFilterSpec, hf, ih as bs h1 h2]
  · have h999 : (99.9 : ℚ) = ⟨999, 10, by decide, by decide⟩ := by
      apply Rat.ext <;> norm_num
    rw [h999]
    decide

/-- C2 witness: the universal part applied at the Scenario 1 catalog. -/
theorem c2_catalog_filter_witness :
    (([10, 11, 12, 13] : List ℚ).length = ([50, 150, 99.9, 500] : List ℚ).length)
    ∧ (([20, 21, 22, 23] : List ℚ).length = ([50, 150, 99.9, 500] : List ℚ).length)
    ∧ Regions.from_file_data [10, 11, 12, 13] [20, 21, 22, 23] [50, 150, 99.9, 500]
        = catalogFilterSpec (zip3 [10, 11, 12, 13] [20, 21, 22, 23] [50, 150, 99.9, 500]) :=
  ⟨rfl, rfl, c2_catalog_filter.1 _ _ _ rfl rfl⟩

/-! ## Claim C3: the rendered overlay format -/

/-- C3 (confirmed). The rendered overlay is exactly the three header lines
(format/version comment, global display-style directive, the coordinate
system declaration `fk5`), each newline-terminated, followed by one
newline-terminated `circle(<ra>,<dec>,15.0")` line per pair, and on the
spec's Scenario 2 input the coordinate line is exactly
`circle(10.123456,20.654321,15.0")`. -/
theorem c3_render_format :
    (∀ regions : List (ℚ × ℚ),
      Regions.render regions =
        String.join (((headerLines ++ regions.map fun p => Regions.print_aperture p.1 p.2).map
          (fun l => l ++ "\n"))))
    ∧ headerLines.length = 3
    ∧ headerLines = [headerLine1, headerLine2, "fk5"]
    ∧ (∀ ra dec : ℚ, Regions.print_aperture ra dec =
        "circle(" ++ pyFloatStr ra ++ "," ++ pyFloatStr dec ++ "," ++ "15.0" ++ "\")")
    ∧ Regions.print_aperture 10.123456 20.654321 = "circle(10.123456,20.654321,15.0\")" := by
  have h15 : pyFloatStr (3 * 5) = "15.0" := by
    rw [show (3 * 5 : ℚ) = 15 by norm_num]
    decide
  refine ⟨?_, rfl, rfl, ?_, ?_⟩
  · intro regions
    rw [List.map_append, str_join_append, List.map_map]
    have hh : String.join (headerLines.map (fun l => l ++ "\n")) = Regions.render_header := by
      decide
    rw [hh]
    rfl
  · intro ra dec
    show _ ++ pyFloatStr (3 * 5) ++ _ = _
    rw [h15]
  · have ha : (10.123456 : ℚ) = ⟨158179, 15625, by decide, by decide⟩ := by
      apply Rat.ext <;> norm_num
    have hb : (20.654321 : ℚ) = ⟨20654321, 1000000, by decide, by decide⟩ := by
      apply Rat.ext <;> norm_num
    show _ ++ pyFloatStr (3 * 5) ++ _ = _
    rw [h15, ha, hb]
    decide

/-! ## Claim C7: empty region set renders header-only output -/

/-- C7 (confirmed). Rendering an empty RegionSet produces exactly the
header block: a non-empty output equal to the three newline-terminated
header lines, with zero coordinate lines. -/
theorem c7_empty_header_only :
    Regions.render [] = Regions.render_header
    ∧ Regions.render [] = String.join (headerLines.map (fun l => l ++ "\n"))
    ∧ Regions.render_header ≠ ""
    ∧ headerLines.length = 3 :=
  ⟨by decide, by decide, by decide, rfl⟩

/-! ## Claim C8: rendering is deterministic -/

/-- C8 (confirmed). The overlay content written by `render_to_file` is a
function of the region list alone: writing the same RegionSet to two
different empty destinations stores the byte-identical string
`Regions.render regions` at both. -/
theorem c8_render_deterministic (regions : List (ℚ × ℚ)) (fs1 fs2 : Fs) (d1 d2 : String)
    (h1 : fs1 d1 = none) (h2 : fs2 d2 = none) :
    Regions.render_to_file fs1 d1 regions d1 = some (Regions.render regions)
    ∧ Regions.render_to_file fs2 d2 regions d2 = some (Regions.render regions)
    ∧ Regions.render_to_file fs1 d1 regions d1 = Regions.render_to_file fs2 d2 regions d2 := by
  refine ⟨?_, ?_, ?_⟩ <;> simp [Regions.render_to_file, setFile]

/-- C8 witness: two writes of the same RegionSet to the two distinct empty
destinations "a" and "b". -/
theorem c8_render_deterministic_witness :
    ((fun _ => none : Fs) "a" = none)
    ∧ ((fun _ => none : Fs) "b" = none)
    ∧ (Regions.render_to_file (fun _ => none) "a" [(10, 20)] "a"
          = some (Regions.render [(10, 20)])
       ∧ Regions.render_to_file (fun _ => none) "b" [(10, 20)] "b"
          = some (Regions.render [(10, 20)])
       ∧ Regions.render_to_file (fun _ => none) "a" [(10, 20)] "a"
          = Regions.render_to_file (fun _ => none) "b" [(10, 20)] "b") :=
  ⟨rfl, rfl, c8_render_deterministic [(10, 20)] (fun _ => none) (fun _ => none) "a" "b" rfl rfl⟩

/-! ## Claim C1: image/catalog pairing -/

/-- C1 (code bug, demonstrated). With two regular image files
`img/proc0.fits` and `img/proc1.fits`, the pairing in `main` produces a
single display cycle showing `img/proc0.fits` with catalog path
`phot/proc1.fits.phot` — the catalog derived from the OTHER image — while
the claimed pairing for `img/proc0.fits` is `phot/proc0.fits.phot`. The
`photfiles` generator consumes the same `files` iterator that `izip` reads
the image slot from, so each image is paired with the catalog of the next
enumerated image (and every second image is never displayed). -/
theorem c1_pairing_bug :
    combined ("phot") (fun _ => true) ["img/proc0.fits", "img/proc1.fits"]
      = [(0, "img/proc0.fits", "phot/proc1.fits.phot")]
    ∧ photPath ("phot") ("img/proc0.fits") = "phot/proc0.fits.phot"
    ∧ ("phot/proc1.fits.phot" : String) ≠ "phot/proc0.fits.phot" :=
  ⟨by decide, by decide, by decide⟩

/-! ## Claim C5: the display stride -/

theorem combinedAux_map_fst (photdir : String) :
    ∀ (files : List String) (i : ℕ) (st : Option String),
      (combinedAux photdir (fun _ => true) i st files).map (fun c => c.1) =
        List.range' i ((files.length + (if st.isSome then 1 else 0)) / 2) := by
  intro files
  induction files with
  | nil => intro i st; cases st <;> simp [combinedAux, List.range']
  | cons f rest ih =>
    intro i st
    cases st with
    | none =>
      show (combinedAux photdir (fun _ => true) i (some f) rest).map _ = _
      rw [ih i (some f)]
      simp
    | some g =>
      show ((i, g, photPath photdir f) :: combinedAux photdir (fun _ => true) (i + 1) none rest).map _ = _
      rw [List.map_cons, ih (i + 1) none]
      have h2 : (rest.length + 1 + 1) / 2 = rest.length / 2 + 1 := by omega
      simp only [List.length_cons, Option.isSome_some, if_pos, Option.isSome_none]
      rw [h2, List.range'_succ]
      simp

/-- C5 (confirmed). A display cycle is selected iff its sequence index `i`
satisfies `i % 100 = 0`; and over 250 enumerated images (all regular
files) the displayed cycles are exactly those with sequence indices 0 and
100. -/
theorem c5_stride :
    (∀ (photdir : String) (isfile : String → Bool) (files : List String)
        (c : ℕ × String × String),
      c ∈ displayedCycles (combined photdir isfile files) ↔
        c ∈ combined photdir isfile files ∧ c.1 % 100 = 0)
    ∧ (∀ (photdir : String) (files : List String), files.length = 250 →
        (displayedCycles (combined photdir (fun _ => true) files)).map (fun c => c.1) = [0, 100]
        ∧ ∀ c ∈ combined photdir (fun _ => true) files,
            (c ∈ displayedCycles (combined photdir (fun _ => true) files) ↔
              c.1 = 0 ∨ c.1 = 100)) := by
  have hmem : ∀ (photdir : String) (isfile : String → Bool) (files : List String)
      (c : ℕ × String × String),
      c ∈ displayedCycles (combined photdir isfile files) ↔
        c ∈ combined photdir isfile files ∧ c.1 % 100 = 0 := by
    intro photdir isfile files c
    simp [displayedCycles, List.mem_filter]
  refine ⟨hmem, ?_⟩
  intro photdir files h250
  have hfst : (combined photdir (fun _ => true) files).map (fun c => c.1) = List.range 125 := by
    rw [show combined photdir (fun _ => true) files
          = combinedAux photdir (fun _ => true) 0 none files from rfl]
    rw [combinedAux_map_fst photdir files 0 none]
    rw [List.range_eq_range']
    simp [h250]
  constructor
  · have hdc : displayedCycles (combined photdir (fun _ => true) files)
        = (combined photdir (fun _ => true) files).filter
            ((fun n => n % 100 == 0) ∘ (fun c => c.1)) := rfl
    rw [hdc, ← List.filter_map, hfst]
    decide
  · intro c hc
    have hlt : c.1 < 125 := by
      have h1 : c.1 ∈ (combined photdir (fun _ => true) files).map (fun c => c.1) :=
        List.mem_map_of_mem _ hc
      rw [hfst] at h1
      exact List.mem_range.mp h1
    rw [hmem photdir (fun _ => true) files c]
    constructor
    · rintro ⟨-, h⟩
      omega
    · rintro (h | h) <;> exact ⟨hc, by omega⟩

/-- C5 witness: the 250-image part applied to a concrete list of 250
files. -/
theorem c5_stride_witness :
    (List.replicate 250 "img/proc.fits").length = 250
    ∧ (displayedCycles (combined ("phot") (fun _ => true)
        (List.replicate 250 "img/proc.fits"))).map (fun c => c.1) = [0, 100] :=
  ⟨by simp, (c5_stride.2 ("phot") (List.replicate 250 "img/proc.fits") (by simp)).1⟩

/-! ## Claim C6: catalog read errors and the orchestration loop -/

/-- C6 counterexample. With every catalog missing its flux column, a run
whose selected cycles are 0 and 100 terminates at cycle 0 with the
`CatalogReadError`; it does not proceed to cycle 100 and report per-cycle —
the error ends the whole run, contradicting the claim that such an error
never terminates it. -/
theorem c6_error_aborts_run_cex :
    runCycles missingFluxReader
        [(0, "proc0.fits", "proc0.fits.phot"), (100, "proc200.fits", "proc200.fits.phot")]
      = Except.error "CatalogReadError: missing column in proc0.fits.phot" := rfl

/-- C6 (corrected). A `CatalogReadError` (missing flux column or unopenable
file) on a selected cycle propagates out of the loop unconditionally: the
run ends with that error and no later cycle is processed, whatever the
remaining cycles are. -/
theorem c6_error_propagation (readFits : String → Option FitsTable) (i : ℕ) (f p e : String)
    (rest : List (ℕ × String × String)) (hi : i % 100 = 0)
    (hp : Regions.from_file readFits p = Except.error e) :
    runCycles readFits ((i, f, p) :: rest) = Except.error e := by
  simp [runCycles, hi, hp]

/-- C6 witness: the propagation theorem applied at a concrete failing
cycle followed by a would-be cycle 100. -/
theorem c6_error_propagation_witness :
    (0 % 100 = 0)
    ∧ Regions.from_file missingFluxReader ("a.phot")
        = Except.error "CatalogReadError: missing column in a.phot"
    ∧ runCycles missingFluxReader
        [(0, "x.fits", "a.phot"), (100, "y.fits", "b.phot")]
      = Except.error "CatalogReadError: missing column in a.phot" :=
  ⟨rfl, rfl,
    c6_error_propagation missingFluxReader 0 ("x.fits") ("a.phot")
      ("CatalogReadError: missing column in a.phot") [(100, "y.fits", "b.phot")] rfl rfl⟩

/-! ## Claim C9: the scoped temporary overlay file -/

/-- C9 (confirmed). The `with`-scoped temporary overlay file never survives
`load_regions`: for any body at all, `withTempFile` leaves the temporary
path absent, and in particular `load_regions` leaves it absent whether the
catalog read succeeds or raises and whether the load-overlay directive
succeeds or fails. -/
theorem c9_tempfile_released :
    (∀ (tmpPath : String) (fs : Fs) (body : Fs → Except String Unit × Fs),
      (withTempFile tmpPath fs body).2 tmpPath = none)
    ∧ (∀ (readFits : String → Option FitsTable) (xpaOk : Bool) (fname tmpPath : String)
        (fs : Fs),
      (DS9.load_regions_fs readFits xpaOk fname tmpPath fs).2 tmpPath = none) := by
  constructor
  · intro tmpPath fs body
    simp [withTempFile, delFile]
  · intro readFits xpaOk fname tmpPath fs
    simp [DS9.load_regions_fs, withTempFile, delFile]

/-! ## Claim C10: viewer session defaults -/

/-- C10 (confirmed). A `DS9` session constructed with all optional inputs
absent defaults the pan target to (1024, 1024) and the zoom to 1, and
`open_file` re-asserts exactly those defaulted values after every image
load directive. -/
theorem c10_viewer_defaults :
    ((DS9.init none none none).x = 1024 ∧ (DS9.init none none none).y = 1024
      ∧ (DS9.init none none none).zoom = 1)
    ∧ ∀ (s : DS9) (fname : String), s.x = 1024 → s.y = 1024 → s.zoom = 1 →
        (s.open_file fname).cmds
          = s.cmds ++ ["file " ++ fname, "pan to 1024 1024 physical", "zscale", "zoom 1"] := by
  refine ⟨⟨rfl, rfl, rfl⟩, ?_⟩
  intro s fname hx hy hz
  have hcmd : "pan to " ++ toString (1024 : ℤ) ++ " " ++ toString (1024 : ℤ) ++ " physical"
      = "pan to 1024 1024 physical" := rfl
  have hzoom : "zoom " ++ toString (1 : ℤ) = "zoom 1" := rfl
  simp [DS9.open_file, DS9.set, DS9.pan_to, DS9.set_zscale, DS9.zoom_level, hx, hy, hz,
    hcmd, hzoom]

/-- C10 witness: a defaulted session opening one concrete image. -/
theorem c10_viewer_defaults_witness :
    ((DS9.init none none none).x = 1024 ∧ (DS9.init none none none).y = 1024
      ∧ (DS9.init none none none).zoom = 1)
    ∧ ((DS9.init none none none).open_file ("proc0.fits")).cmds
        = (DS9.init none none none).cmds
          ++ ["file " ++ "proc0.fits", "pan to 1024 1024 physical", "zscale", "zoom 1"] :=
  ⟨⟨rfl, rfl, rfl⟩,
    c10_viewer_defaults.2 (DS9.init none none none) ("proc0.fits") rfl rfl rfl⟩

/-! ## C4 lemmas: prefixes, suffixes and splitting -/

theorem dropPrefixC_append (p l : List Char) : dropPrefixC p (p ++ l) = some l := by
  induction p with
  | nil => rfl
  | cons x xs ih => simp [dropPrefixC, ih]

theorem dropSuffixC_append (suf l : List Char) : dropSuffixC suf (l ++ suf) = some l := by
  unfold dropSuffixC
  rw [List.reverse_append, dropPrefixC_append]
  simp

theorem splitOnChar_not_mem (c : Char) (l : List Char) (h : c ∉ l) :
    splitOnChar c l = [l] := by
  induction l with
  | nil => rfl
  | cons x xs ih =>
    have hx : ¬ x = c := fun he => h (he ▸ List.mem_cons_self x xs)
    have hxs : c ∉ xs := fun hm => h (List.mem_cons_of_mem x hm)
    simp [splitOnChar, hx, ih hxs]

theorem splitOnChar_append (c : Char) (A B : List Char) (h : c ∉ A) :
    splitOnChar c (A ++ c :: B) = A :: splitOnChar c B := by
  induction A with
  | nil => simp [splitOnChar]
  | cons x xs ih =>
    have hx : ¬ x = c := fun he => h (he ▸ List.mem_cons_self x xs)
    have hxs : c ∉ xs := fun hm => h (List.mem_cons_of_mem x hm)
    simp only [List.cons_append]
    simp [splitOnChar, hx, ih hxs]

/-! ## C4 lemmas: digits and digit characters -/

theorem digitChar_mem (d : ℕ) :
    digitChar d ∈ ['0', '1', '2', '3', '4', '5', '6', '7', '8', '9'] := by
  unfold digitChar
  by_cases h : d < 10
  · rw [if_pos h]
    interval_cases d <;> decide
  · rw [if_neg h]
    decide

theorem charDigit_digitChar_isSome (d : ℕ) : (charDigit (digitChar d)).isSome := by
  have h := digitChar_mem d
  generalize digitChar d = ch at h
  fin_cases h <;> rfl

theorem charDigit_digitChar (d : ℕ) (h : d < 10) : charDigit (digitChar d) = some d := by
  interval_cases d <;> rfl

theorem mapM_digitChar (ds : List ℕ) (h : ∀ d ∈ ds, d < 10) :
    (ds.map digitChar).mapM charDigit = some ds := by
  induction ds with
  | nil => rfl
  | cons d rest ih =>
    rw [List.map_cons, List.mapM_cons, charDigit_digitChar d (h d (List.mem_cons_self d rest)),
      ih (fun x hx => h x (List.mem_cons_of_mem d hx))]
    rfl

theorem foldl_base10 (l : List ℕ) :
    ∀ a : ℕ, l.foldl (fun a d => a * 10 + d) a = a * 10 ^ l.length + bigEndVal l := by
  induction l with
  | nil => intro a; simp [bigEndVal]
  | cons d rest ih =>
    intro a
    show rest.foldl _ (a * 10 + d) = _
    rw [ih (a * 10 + d)]
    have hb : bigEndVal (d :: rest) = d * 10 ^ rest.length + bigEndVal rest := by
      show rest.foldl _ (0 * 10 + d) = _
      rw [ih (0 * 10 + d)]
      ring
    rw [hb, List.length_cons]
    ring

theorem bigEndVal_append_digit (l : List ℕ) (d : ℕ) :
    bigEndVal (l ++ [d]) = bigEndVal l * 10 + d := by
  simp [bigEndVal, List.foldl_append]

theorem natDigitsBE_lt10 : ∀ (fuel n : ℕ), ∀ d ∈ natDigitsBE fuel n, d < 10 := by
  intro fuel
  induction fuel with
  | zero => intro n d hd; simp [natDigitsBE] at hd
  | succ f ih =>
    intro n d hd
    rw [natDigitsBE] at hd
    by_cases hn : n = 0
    · simp [hn] at hd
    · rw [if_neg hn] at hd
      rcases List.mem_append.mp hd with h | h
      · exact ih (n / 10) d h
      · simp at h
        omega

theorem bigEndVal_natDigitsBE :
    ∀ (fuel n : ℕ), n < 10 ^ fuel → bigEndVal (natDigitsBE fuel n) = n := by
  intro fuel
  induction fuel with
  | zero => intro n h; interval_cases n; rfl
  | succ f ih =>
    intro n h
    rw [natDigitsBE]
    by_cases hn : n = 0
    · simp [hn, bigEndVal]
    · rw [if_neg hn, bigEndVal_append_digit,
        ih (n / 10) (by rw [pow_succ, mul_comm] at h; exact Nat.div_lt_of_lt_mul h)]
      omega

theorem natDigitsBE_ne_nil (n : ℕ) (hn : n ≠ 0) : natDigitsBE n n ≠ [] := by
  cases n with
  | zero => exact absurd rfl hn
  | succ m =>
    rw [natDigitsBE, if_neg hn]
    simp

theorem intChars_ne_nil (m : ℕ) : intChars m ≠ [] := by
  unfold intChars
  by_cases hm : m = 0
  · simp [hm]
  · rw [if_neg hm]
    simp [natDigitsBE_ne_nil m hm]

theorem intChars_digitlike (m : ℕ) : ∀ c ∈ intChars m, (charDigit c).isSome := by
  intro c hc
  unfold intChars at hc
  by_cases hm : m = 0
  · rw [if_pos hm] at hc
    simp at hc
    subst hc
    rfl
  · rw [if_neg hm] at hc
    obtain ⟨d, _, rfl⟩ := List.mem_map.mp hc
    exact charDigit_digitChar_isSome d

theorem not_mem_of_none (l : List Char) (hl : ∀ c ∈ l, (charDigit c).isSome) (c0 : Char)
    (h0 : charDigit c0 = none) : c0 ∉ l := by
  intro hm
  have h := hl c0 hm
  rw [h0] at h
  simp at h

theorem parseNatChars_intChars (n : ℕ) : parseNatChars (intChars n) = some n := by
  by_cases hn : n = 0
  · subst hn
    rfl
  · unfold intChars
    rw [if_neg hn]
    have hemp : ((natDigitsBE n n).map digitChar).isEmpty = false := by
      simp [List.isEmpty_eq_false, natDigitsBE_ne_nil n hn]
    unfold parseNatChars
    rw [hemp]
    rw [mapM_digitChar _ (natDigitsBE_lt10 n n)]
    simp [bigEndVal_natDigitsBE n n (Nat.lt_pow_self (by norm_num) n)]

theorem fracDigitsND_lt10 :
    ∀ (fuel n d : ℕ), n < d → ∀ x ∈ fracDigitsND fuel n d, x < 10 := by
  intro fuel
  induction fuel with
  | zero => intro n d _ x hx; simp [fracDigitsND] at hx
  | succ f ih =>
    intro n d hnd x hx
    rw [fracDigitsND] at hx
    by_cases hn : n = 0
    · simp [hn] at hx
    · rw [if_neg hn] at hx
      have hd : 0 < d := lt_of_le_of_lt (Nat.zero_le n) hnd
      rcases List.mem_cons.mp hx with h | h
      · subst h
        exact Nat.div_lt_of_lt_mul (by omega)
      · exact ih (n * 10 % d) d (Nat.mod_lt _ hd) x h

theorem fracDigitsND_ne_nil (fuel n d : ℕ) (hn : n ≠ 0) (hf : fuel ≠ 0) :
    fracDigitsND fuel n d ≠ [] := by
  cases fuel with
  | zero => exact absurd rfl hf
  | succ f =>
    rw [fracDigitsND, if_neg hn]
    simp

theorem digitsVal_cons (x : ℕ) (ds : List ℕ) :
    digitsVal (x :: ds) = ((x : ℚ) + digitsVal ds) / 10 := rfl

theorem digitsVal_eq_bigEndVal (ds : List ℕ) :
    digitsVal ds = (bigEndVal ds : ℚ) / 10 ^ ds.length := by
  induction ds with
  | nil => simp [digitsVal, bigEndVal]
  | cons x rest ih =>
    rw [digitsVal_cons, ih]
    have hb : bigEndVal (x :: rest) = x * 10 ^ rest.length + bigEndVal rest := by
      show rest.foldl _ (0 * 10 + x) = _
      rw [foldl_base10]
      ring
    rw [hb, List.length_cons]
    have h10 : ((10 : ℚ) ^ rest.length) ≠ 0 := by positivity
    push_cast
    rw [pow_succ]
    field_simp

theorem fracDigitsND_val :
    ∀ (fuel n d : ℕ), 0 < d → n < d → d ∣ n * 10 ^ fuel →
      digitsVal (fracDigitsND fuel n d) = (n : ℚ) / d := by
  intro fuel
  induction fuel with
  | zero =>
    intro n d hd hnd hdvd
    simp only [pow_zero, mul_one] at hdvd
    have hn0 : n = 0 := by
      rcases Nat.eq_zero_or_pos n with h | h
      · exact h
      · exact absurd (Nat.le_of_dvd h hdvd) (by omega)
    subst hn0
    simp [fracDigitsND, digitsVal]
  | succ f ih =>
    intro n d hd hnd hdvd
    rw [fracDigitsND]
    by_cases hn : n = 0
    · simp [hn, digitsVal]
    · rw [if_neg hn, digitsVal_cons]
      have hmod : n * 10 % d < d := Nat.mod_lt _ hd
      have hdm : d ∣ (n * 10 % d) * 10 ^ f := by
        have hdm0 := Nat.div_add_mod (n * 10) d
        have heq : n * 10 % d = n * 10 - d * (n * 10 / d) := by omega
        rw [heq, Nat.sub_mul]
        apply Nat.dvd_sub'
        · have hrw : n * 10 * 10 ^ f = n * 10 ^ (f + 1) := by ring
          rw [hrw]
          exact hdvd
        · exact ⟨n * 10 / d * 10 ^ f, by ring⟩
      rw [ih (n * 10 % d) d hd hmod hdm]
      have hkey : (d : ℚ) * ((n * 10 / d : ℕ) : ℚ) + ((n * 10 % d : ℕ) : ℚ) = (n : ℚ) * 10 := by
        exact_mod_cast congrArg (fun k : ℕ => (k : ℚ)) (Nat.div_add_mod (n * 10) d)
      have hd' : (d : ℚ) ≠ 0 := by
        exact_mod_cast hd.ne'
      field_simp
      linear_combination (d : ℚ) * hkey

/-! ## C4 lemmas: the characters of a rendered number -/

theorem strNNCharsND_chars (n d : ℕ) :
    ∀ c ∈ strNNCharsND n d, (charDigit c).isSome ∨ c = '.' := by
  intro c hc
  unfold strNNCharsND at hc
  rcases List.mem_append.mp hc with h | h
  · exact Or.inl (intChars_digitlike _ c h)
  · rcases List.mem_cons.mp h with h | h
    · exact Or.inr h
    · left
      by_cases hnd : n % d = 0
      · rw [if_pos hnd] at h
        simp at h
        subst h
        rfl
      · rw [if_neg hnd] at h
        obtain ⟨x, _, rfl⟩ := List.mem_map.mp h
        exact charDigit_digitChar_isSome x

theorem strChars_chars (q : ℚ) :
    ∀ c ∈ strChars q, (charDigit c).isSome ∨ c = '.' ∨ c = '-' := by
  intro c hc
  unfold strChars at hc
  by_cases hq : q < 0
  · rw [if_pos hq] at hc
    rcases List.mem_cons.mp hc with h | h
    · exact Or.inr (Or.inr h)
    · rcases strNNCharsND_chars _ _ c h with h' | h'
      · exact Or.inl h'
      · exact Or.inr (Or.inl h')
  · rw [if_neg hq] at hc
    rcases strNNCharsND_chars _ _ c hc with h' | h'
    · exact Or.inl h'
    · exact Or.inr (Or.inl h')

theorem comma_not_mem_strChars (q : ℚ) : ',' ∉ strChars q := by
  intro hm
  rcases strChars_chars q ',' hm with h | h | h
  · rw [show charDigit ',' = none from rfl] at h
    simp at h
  · exact absurd h (by decide)
  · exact absurd h (by decide)

theorem strNNCharsND_cons (n d : ℕ) :
    ∃ hd tl, strNNCharsND n d = hd :: tl ∧ (charDigit hd).isSome := by
  obtain ⟨c, cs, hc⟩ := List.exists_cons_of_ne_nil (intChars_ne_nil (n / d))
  refine ⟨c, cs ++ '.' :: (if n % d = 0 then ['0']
    else (fracDigitsND 12 (n % d) d).map digitChar), ?_, ?_⟩
  · unfold strNNCharsND
    rw [hc]
    rfl
  · apply intChars_digitlike (n / d)
    rw [hc]
    exact List.mem_cons_self _ _

/-! ## C4 lemmas: parsing back a rendered number -/

theorem parseDecNNChars_eq (A B : List Char) (hA : '.' ∉ A) (hB : '.' ∉ B) (a b : ℕ)
    (ha : parseNatChars A = some a) (hb : parseNatChars B = some b) :
    parseDecNNChars (A ++ '.' :: B) = some ((a : ℚ) + (b : ℚ) / 10 ^ B.length) := by
  unfold parseDecNNChars
  rw [splitOnChar_append '.' A B hA, splitOnChar_not_mem '.' B hB]
  simp only [ha, hb]

theorem parseDecNN_strNN (q : ℚ) (hq : 0 ≤ q) (h12 : q.den ∣ 10 ^ 12) :
    parseDecNNChars (strNNCharsND q.num.toNat q.den) = some q := by
  have hD0 : 0 < q.den := q.den_pos
  have hQ : ((q.num.toNat : ℕ) : ℚ) / ((q.den : ℕ) : ℚ) = q := by
    have hnum : ((q.num.toNat : ℕ) : ℚ) = ((q.num : ℤ) : ℚ) := by
      have h := Int.toNat_of_nonneg (Rat.num_nonneg.mpr hq)
      exact_mod_cast congrArg (fun z : ℤ => (z : ℚ)) h
    rw [hnum]
    exact Rat.num_div_den q
  set N := q.num.toNat with hN
  set D := q.den with hD
  have hdot1 : '.' ∉ intChars (N / D) :=
    not_mem_of_none _ (intChars_digitlike _) '.' rfl
  by_cases hnd : N % D = 0
  · have hstr : strNNCharsND N D = intChars (N / D) ++ '.' :: ['0'] := by
      unfold strNNCharsND
      rw [if_pos hnd]
    rw [hstr,
      parseDecNNChars_eq (intChars (N / D)) ['0'] hdot1 (by decide) (N / D) 0
        (parseNatChars_intChars _) (by decide)]
    have hdvd : D ∣ N := Nat.dvd_of_mod_eq_zero hnd
    have hD' : ((D : ℕ) : ℚ) ≠ 0 := by
      exact_mod_cast hD0.ne'
    have hcast : ((N / D : ℕ) : ℚ) = ((N : ℕ) : ℚ) / ((D : ℕ) : ℚ) :=
      Nat.cast_div hdvd hD'
    rw [hcast]
    norm_num
    rw [hQ]
  · have hstr : strNNCharsND N D
        = intChars (N / D) ++ '.' :: (fracDigitsND 12 (N % D) D).map digitChar := by
      unfold strNNCharsND
      rw [if_neg hnd]
    have hdot2 : '.' ∉ (fracDigitsND 12 (N % D) D).map digitChar := by
      apply not_mem_of_none
      · intro c hc
        obtain ⟨x, _, rfl⟩ := List.mem_map.mp hc
        exact charDigit_digitChar_isSome x
      · rfl
    have hlt : ∀ x ∈ fracDigitsND 12 (N % D) D, x < 10 :=
      fracDigitsND_lt10 12 (N % D) D (Nat.mod_lt _ hD0)
    have hne : fracDigitsND 12 (N % D) D ≠ [] :=
      fracDigitsND_ne_nil 12 (N % D) D hnd (by norm_num)
    have hp : parseNatChars ((fracDigitsND 12 (N % D) D).map digitChar)
        = some (bigEndVal (fracDigitsND 12 (N % D) D)) := by
      unfold parseNatChars
      rw [show ((fracDigitsND 12 (N % D) D).map digitChar).isEmpty = false by
        simp [List.isEmpty_eq_false, hne]]
      rw [mapM_digitChar _ hlt]
      rfl
    rw [hstr, parseDecNNChars_eq _ _ hdot1 hdot2 _ _ (parseNatChars_intChars _) hp]
    rw [List.length_map]
    have hval : (bigEndVal (fracDigitsND 12 (N % D) D) : ℚ)
          / 10 ^ (fracDigitsND 12 (N % D) D).length
        = ((N % D : ℕ) : ℚ) / ((D : ℕ) : ℚ) := by
      rw [← digitsVal_eq_bigEndVal]
      exact fracDigitsND_val 12 (N % D) D hD0 (Nat.mod_lt _ hD0) (Dvd.dvd.mul_left h12 _)
    rw [hval]
    have hkey : ((D : ℕ) : ℚ) * ((N / D : ℕ) : ℚ) + ((N % D : ℕ) : ℚ) = ((N : ℕ) : ℚ) := by
      exact_mod_cast congrArg (fun k : ℕ => (k : ℚ)) (Nat.div_add_mod N D)
    have hD' : ((D : ℕ) : ℚ) ≠ 0 := by
      exact_mod_cast hD0.ne'
    have hsum : ((N / D : ℕ) : ℚ) + ((N % D : ℕ) : ℚ) / ((D : ℕ) : ℚ)
        = ((N : ℕ) : ℚ) / ((D : ℕ) : ℚ) := by
      field_simp
      linear_combination hkey
    rw [hsum, hQ]

theorem parseDec_strChars (q : ℚ) (h12 : q.den ∣ 10 ^ 12) :
    parseDecChars (strChars q) = some q := by
  unfold strChars parseDecChars
  by_cases hq : q < 0
  · rw [if_pos hq]
    simp only [List.head?_cons, List.tail_cons]
    rw [if_pos trivial]
    have hden : (-q).den = q.den := Rat.neg_den q
    rw [parseDecNN_strNN (-q) (by linarith) (by rw [hden]; exact h12)]
    simp
  · rw [if_neg hq]
    obtain ⟨hd, tl, he, hdig⟩ := strNNCharsND_cons q.num.toNat q.den
    rw [he]
    simp only [List.head?_cons, List.tail_cons]
    have hne : ¬ (some hd = some '-') := by
      intro hcon
      have : hd = '-' := by injection hcon
      subst this
      rw [show charDigit '-' = none from rfl] at hdig
      simp at hdig
    rw [if_neg hne, ← he]
    exact parseDecNN_strNN q (not_lt.mp hq) h12

/-! ## C4: parsing a whole rendered coordinate line -/

theorem print_aperture_data (ra dec : ℚ) :
    (Regions.print_aperture ra dec).data
      = ("circle(").data ++ (strChars ra ++ ',' ::
          (strChars dec ++ ',' :: (strChars (3 * 5) ++ ("\")").data))) := by
  simp only [Regions.print_aperture, pyFloatStr, String.data_append, List.append_assoc]
  rfl

theorem parseAperture_print (ra dec : ℚ) (h1 : ra.den ∣ 10 ^ 12) (h2 : dec.den ∣ 10 ^ 12) :
    parseAperture (Regions.print_aperture ra dec) = some (ra, dec, 15) := by
  unfold parseAperture
  rw [print_aperture_data, dropPrefixC_append]
  simp only [Option.some_bind]
  have hre : strChars ra ++ ',' :: (strChars dec ++ ',' :: (strChars (3 * 5) ++ ("\")").data))
      = (strChars ra ++ ',' :: (strChars dec ++ ',' :: strChars (3 * 5))) ++ ("\")").data := by
    simp [List.append_assoc]
  rw [hre, dropSuffixC_append]
  simp only [Option.some_bind]
  rw [splitOnChar_append ',' _ _ (comma_not_mem_strChars ra),
    splitOnChar_append ',' _ _ (comma_not_mem_strChars dec),
    splitOnChar_not_mem ',' _ (comma_not_mem_strChars (3 * 5))]
  have h15 : (3 * 5 : ℚ) = 15 := by norm_num
  rw [List.map_cons, List.map_cons, List.map_cons, List.map_nil]
  rw [parseDec_strChars ra h1, parseDec_strChars dec h2,
    parseDec_strChars (3 * 5) (by rw [h15]; norm_num), h15]

/-- C4 (confirmed). Serialize-then-parse is the identity on the stored
coordinate pairs: for a RegionSet whose coordinates are exactly
representable within the 12 fractional decimal digits the renderer emits
(`den ∣ 10^12`, which holds for every value the textual format can carry),
re-parsing each rendered coordinate line recovers exactly the serialized
(ra, dec, radius) triple, with radius 15 on every line. -/
theorem c4_roundtrip (regions : List (ℚ × ℚ))
    (h : ∀ p ∈ regions, p.1.den ∣ 10 ^ 12 ∧ p.2.den ∣ 10 ^ 12) :
    regions.map (fun p => parseAperture (Regions.print_aperture p.1 p.2))
      = regions.map (fun p => some (p.1, p.2, (15 : ℚ))) := by
  apply List.map_congr_left
  intro p hp
  exact parseAperture_print p.1 p.2 (h p hp).1 (h p hp).2

/-- C4 witness: the round trip applied at a concrete one-region set. -/
theorem c4_roundtrip_witness :
    (∀ p ∈ ([((10 : ℚ), (20 : ℚ))] : List (ℚ × ℚ)), p.1.den ∣ 10 ^ 12 ∧ p.2.den ∣ 10 ^ 12)
    ∧ ([((10 : ℚ), (20 : ℚ))] : List (ℚ × ℚ)).map
          (fun p => parseAperture (Regions.print_aperture p.1 p.2))
        = ([((10 : ℚ), (20 : ℚ))] : List (ℚ × ℚ)).map
            (fun p => some (p.1, p.2, (15 : ℚ))) :=
  ⟨by decide, c4_roundtrip _ (by decide)⟩
